import Mathlib

/-!
Verification development for the opd-ai/paywall payment reconciliation core.

The Go sources are shallowly embedded in Lean: pure functions become Lean
functions, in-place mutation becomes explicit state passing, fallible Go
functions returning `(T, error)` become `Except String T`, machine integers
become `Nat`/`Int`, `float64` amounts become `Rat` (only order comparisons
are relied upon), and Go maps become association lists or total functions
with the Go zero value as default.  Loops with a data-dependent bound are
embedded with an explicit fuel argument that provably dominates the
iteration count, keeping every definition kernel-executable.
-/

namespace Paywall

/- ===================== wallet/base58.go ===================== -/

/-- The base-58 alphabet, from `wallet/base58.go`:
`"123456789ABCDEFGHJKLMNPQRSTUVWXYZabcdefghijkmnopqrstuvwxyz"`. -/
def base58Alphabet : List Char :=
  ['1','2','3','4','5','6','7','8','9',
   'A','B','C','D','E','F','G','H','J','K','L','M','N','P','Q','R','S','T','U','V','W','X','Y','Z',
   'a','b','c','d','e','f','g','h','i','j','k','m','n','o','p','q','r','s','t','u','v','w','x','y','z']

/-- Indexing into the alphabet, `base58Alphabet[d]` in the Go source (the
source only ever indexes with `d < 58`; out-of-range indices give a dummy). -/
def b58Char (d : Nat) : Char := base58Alphabet.getD d '?'

/-- Little-endian digits of `x` in the given base, with explicit fuel: the
embedding of the Go loop `for x.Cmp(zero) > 0 { x.DivMod(x, base, mod); ... }`.
The fuel only needs to dominate the number of iterations; `x` itself does. -/
def natDigitsFuel (base : Nat) : Nat → Nat → List Nat
  | 0, _ => []
  | fuel + 1, x => if x = 0 then [] else x % base :: natDigitsFuel base fuel (x / base)

/-- Little-endian base-58 digits of `x`, the digit loop of `Base58Encode`. -/
def natToB58 (x : Nat) : List Nat := natDigitsFuel 58 x x

/-- Little-endian base-256 digits of `x`. -/
def natToBytesLE (x : Nat) : List Nat := natDigitsFuel 256 x x

/-- Behaviour of Go's `big.Int.Bytes()`: the minimal big-endian byte
representation of a natural number (empty for zero). -/
def bigIntBytes (x : Nat) : List Nat := (natToBytesLE x).reverse

/-- Behaviour of Go's `big.Int.SetBytes`: interpret a byte slice as a
big-endian natural number. -/
def bytesToNat (bs : List Nat) : Nat := bs.foldl (fun acc b => acc * 256 + b) 0

/-- `Base58Encode` from `wallet/base58.go`: convert the input to a big
integer, emit base-58 digits little-endian, append one `'1'` per leading
zero byte of the input, and reverse the buffer. -/
def Base58Encode (input : List Nat) : List Char :=
  ((natToB58 (bytesToNat input)).map b58Char ++
    List.replicate ((input.takeWhile (· == 0)).length) '1').reverse

/-- Linear scan of the alphabet; `strings.IndexRune` restricted to the
alphabet string, with `none` for "not found" (-1 in Go). -/
def b58IndexAux (c : Char) : List Char → Option Nat
  | [] => none
  | a :: as => if a = c then some 0 else (b58IndexAux c as).map (· + 1)

/-- Position of a character in the base-58 alphabet. -/
def b58Index (c : Char) : Option Nat := b58IndexAux c base58Alphabet

/-- The accumulation loop of `Base58Decode`: `result = result*58 + pos`,
failing on a character outside the alphabet. -/
def b58DecodeNum : List Char → Nat → Option Nat
  | [], acc => some acc
  | c :: cs, acc =>
    match b58Index c with
    | none => none
    | some pos => b58DecodeNum cs (acc * 58 + pos)

/-- `Base58Decode` from `wallet/base58.go`: accumulate the big integer,
take its big-endian bytes, and prepend one zero byte per leading `'1'`
character of the input. -/
def Base58Decode (input : List Char) : Option (List Nat) :=
  match b58DecodeNum input 0 with
  | none => none
  | some n =>
    some (List.replicate ((input.takeWhile (· == '1')).length) 0 ++ bigIntBytes n)

/- ===================== wallet/btc_hd_wallet.go ===================== -/

/-- Hardened key starting index, `0x80000000`. -/
def hardenedKeyStart : Nat := 0x80000000

/-- BIP44 purpose level. -/
def purposeBIP44 : Nat := 44

/-- Bitcoin coin type. -/
def coinTypeBTC : Nat := 0

/-- Default account index. -/
def accountDefault : Nat := 0

/-- External chain for receiving addresses. -/
def changeExternal : Nat := 0

/-- Order of the secp256k1 group, `btcec.S256().N`. -/
def curveOrderN : Nat :=
  0xFFFFFFFFFFFFFFFFFFFFFFFFFFFFFFFEBAAEDCE6AF48A03BBFD25E8CD0364141

/-- Big-endian 4-byte encoding of a `uint32`, `binary.BigEndian.PutUint32`. -/
def uint32BE (n : Nat) : List Nat :=
  [n / 2 ^ 24 % 256, n / 2 ^ 16 % 256, n / 2 ^ 8 % 256, n % 256]

/-- Left-zero-padded 32-byte big-endian encoding:
`copy(childKeyBytes[32-len(childIntBytes):], childIntBytes)`. -/
def natToBytes32 (n : Nat) : List Nat :=
  List.replicate (32 - (bigIntBytes n).length) 0 ++ bigIntBytes n

/-- State of `BTCHDWallet`.  The cryptographic primitives the wallet calls
out to (`hmac.New(sha512.New, ...)`, secp256k1 point arithmetic and
compressed-point serialization, `sha256`, `ripemd160`) are carried as
function-valued fields: the embedding is parametric in them, since the
claims under verification only concern the wallet's control flow and index
management, never properties of the hash functions themselves. -/
structure BTCHDWallet where
  masterKey : List Nat
  chainCode : List Nat
  nextIndex : Nat
  hmacSHA512 : List Nat → List Nat → List Nat
  serializeCompressedPub : List Nat → List Nat
  sha256 : List Nat → List Nat
  ripemd160 : List Nat → List Nat
  pubKeyHashVersion : Nat

/-- `BTCHDWallet.deriveKey`: BIP32 child-key derivation.  Hardened indices
prepend `0x00` to the private key, normal indices use the serialized
compressed public key; the HMAC-SHA512 digest is split into a candidate
child key and chain code; the child key is `(child + parent) mod N`, and a
zero result is rejected with an `invalid child key` error. -/
def deriveKey (w : BTCHDWallet) (key chainCode : List Nat) (index : Nat) :
    Except String (List Nat × List Nat) :=
  let data :=
    if hardenedKeyStart ≤ index then 0 :: key
    else w.serializeCompressedPub key
  let data := data ++ uint32BE index
  let sum := w.hmacSHA512 chainCode data
  let childKey := sum.take 32
  let childChainCode := sum.drop 32
  let childInt := (bytesToNat childKey + bytesToNat key) % curveOrderN
  if childInt = 0 then Except.error "invalid child key"
  else Except.ok (natToBytes32 childInt, childChainCode)

/-- The BIP44 path `m/44'/0'/0'/0/nextIndex` built by `DeriveNextAddress`. -/
def derivePath (w : BTCHDWallet) : List Nat :=
  [purposeBIP44 ||| hardenedKeyStart,
   coinTypeBTC ||| hardenedKeyStart,
   accountDefault ||| hardenedKeyStart,
   changeExternal,
   w.nextIndex]

/-- The derivation loop of `DeriveNextAddress`: thread `(key, chainCode)`
through `deriveKey` for each path segment, returning the wrapped error of
the first failing segment. -/
def deriveKeyChain (w : BTCHDWallet) :
    List Nat → List Nat × List Nat → Except String (List Nat × List Nat)
  | [], kc => Except.ok kc
  | seg :: rest, (key, cc) =>
    match deriveKey w key cc seg with
    | Except.error e => Except.error ("key derivation failed: " ++ e)
    | Except.ok kc => deriveKeyChain w rest kc

/-- `BTCHDWallet.pubKeyToAddress`: SHA256 then RIPEMD160 of the public key,
prepend the network version byte, append the first four bytes of the double
SHA256 checksum, base-58 encode. -/
def pubKeyToAddress (w : BTCHDWallet) (pubKey : List Nat) : String :=
  let pubKeyHash := w.ripemd160 (w.sha256 pubKey)
  let versionedPayload := w.pubKeyHashVersion :: pubKeyHash
  let checksum := ((w.sha256 (w.sha256 versionedPayload)).take 4)
  let fullPayload := versionedPayload ++ checksum
  String.mk (Base58Encode fullPayload)

/-- `BTCHDWallet.DeriveNextAddress`: derive along the BIP44 path; on any
derivation error return the error with the wallet state untouched; on
success form the address and increment `nextIndex`.  The in-place mutation
of the Go receiver is made explicit by returning the new wallet state. -/
def DeriveNextAddress (w : BTCHDWallet) : Except String String × BTCHDWallet :=
  match deriveKeyChain w (derivePath w) (w.masterKey, w.chainCode) with
  | Except.error e => (Except.error e, w)
  | Except.ok (key, _) =>
    let pubKeyBytes := w.serializeCompressedPub key
    let address := pubKeyToAddress w pubKeyBytes
    (Except.ok address, { w with nextIndex := w.nextIndex + 1 })

/-- `BTCHDWallet.GetAddress`: delegates to `DeriveNextAddress`, wrapping a
failure as `failed to derive address: ...`. -/
def GetAddress (w : BTCHDWallet) : Except String String × BTCHDWallet :=
  match DeriveNextAddress w with
  | (Except.error e, w) => (Except.error ("failed to derive address: " ++ e), w)
  | (Except.ok a, w) => (Except.ok a, w)

/- ===================== types.go ===================== -/

/-- Currency tags: `Bitcoin WalletType = "BTC"`, `Monero WalletType = "XMR"`. -/
inductive WalletType where
  | bitcoin
  | monero
deriving DecidableEq, Repr

/-- The Go string value of a `WalletType`. -/
def WalletType.tag : WalletType → String
  | .bitcoin => "BTC"
  | .monero => "XMR"

/-- Payment lifecycle states: the constants `StatusPending`,
`StatusConfirmed`, `StatusExpired`. -/
inductive PaymentStatus where
  | pending
  | confirmed
  | expired
deriving DecidableEq, Repr

/-- The `Payment` record.  The `Addresses` and `Amounts` Go maps are
association lists (the ledger only inserts distinct currency keys);
`float64` amounts are embedded as `Rat`, timestamps as `Int` (Unix time),
`Confirmations` (a Go `int`) as `Int`. -/
structure Payment where
  id : String
  addresses : List (WalletType × String)
  amounts : List (WalletType × Rat)
  createdAt : Int
  expiresAt : Int
  status : PaymentStatus
  confirmations : Int
  transactionID : String
deriving DecidableEq, Repr

/-- Go map indexing `payment.Addresses[wt]`, with the zero value `""` for a
missing key. -/
def lookupAddr (l : List (WalletType × String)) (wt : WalletType) : String :=
  ((l.find? (fun e => e.1 == wt)).map (fun e => e.2)).getD ""

/-- Go map indexing `payment.Amounts[wt]`, with the zero value `0` for a
missing key. -/
def lookupAmount (l : List (WalletType × Rat)) (wt : WalletType) : Rat :=
  ((l.find? (fun e => e.1 == wt)).map (fun e => e.2)).getD 0

/- ===================== memstore.go / filestore ===================== -/

/-- `MemoryStore.ListPendingPayments`: keeps the stored payments with
`p.Confirmations < 1`.  The store's map of payments is embedded as the list
of stored records. -/
def memoryStoreListPendingPayments (payments : List Payment) : List Payment :=
  payments.filter (fun p => decide (p.confirmations < 1))

/-- `FileStore.ListPendingPayments`: keeps the stored payments with
`payment.Confirmations <= 1` (sic — its own doc comment says "less than 1
confirmation").  File enumeration and JSON decoding are abstracted into the
list of successfully parsed records. -/
def fileStoreListPendingPayments (payments : List Payment) : List Payment :=
  payments.filter (fun p => decide (p.confirmations ≤ 1))

/- ===================== paywall.go (NewPaywall / CreatePayment) ========= -/

/-- The `MinConfirmations` clamp in `NewPaywall`:
`if config.MinConfirmations < 1 { config.MinConfirmations = 1 }`. -/
def newPaywallMinConfirmations (configured : Int) : Int :=
  if configured < 1 then 1 else configured

/-- A wallet as seen by the payment ledger: the `nextIndex` counter plus an
abstract derivation outcome.  `addressAt` stands for whatever address the
concrete wallet (local BIP44 derivation or remote Monero subaddress
allocation) would produce at a given index; `deriveError` models a failing
derivation/RPC call.  `deriveNextAddress` increments the index exactly when
it succeeds, as both `BTCHDWallet.DeriveNextAddress` and
`MoneroHDWallet.DeriveNextAddress` do. -/
structure LedgerWallet where
  nextIndex : Nat
  addressAt : Nat → String
  deriveError : Option String

/-- `DeriveNextAddress` at the ledger's level of abstraction. -/
def LedgerWallet.deriveNextAddress (w : LedgerWallet) :
    Except String String × LedgerWallet :=
  match w.deriveError with
  | some e => (Except.error e, w)
  | none => (Except.ok (w.addressAt w.nextIndex), { w with nextIndex := w.nextIndex + 1 })

/-- The paywall state relevant to `CreatePayment`: the `HDWallets` map
(association list over distinct currency tags), per-currency `prices`, the
payment timeout, and the store.  `storeError` forces the outcome of
`Store.CreatePayment`: `some e` makes the store fail with error `e`. -/
structure PaywallState where
  hdWallets : List (WalletType × LedgerWallet)
  prices : WalletType → Rat
  paymentTimeout : Int
  storeError : Option String
  store : List Payment

/-- The address-generation loop of `Paywall.CreatePayment`: for each enabled
wallet call `DeriveNextAddress`; on failure return the wrapped error at
once (wallets already processed keep their advanced indices — the Go loop
mutates the wallets in place); on success record the address and the
configured amount for that currency. -/
def derivationLoop (prices : WalletType → Rat) :
    List (WalletType × LedgerWallet) → Payment →
    Except String Payment × List (WalletType × LedgerWallet)
  | [], pay => (Except.ok pay, [])
  | (wt, w) :: rest, pay =>
    match w.deriveNextAddress with
    | (Except.error e, w) =>
      (Except.error ("generate " ++ wt.tag ++ " address: " ++ e), (wt, w) :: rest)
    | (Except.ok addr, w) =>
      let pay := { pay with
        addresses := pay.addresses ++ [(wt, addr)],
        amounts := pay.amounts ++ [(wt, prices wt)] }
      ((derivationLoop prices rest pay).1, (wt, w) :: (derivationLoop prices rest pay).2)

/-- `Paywall.CreatePayment` (the multi-currency version): build the pending
payment record with the freshly generated random id, derive an address for
every enabled wallet, fail with `no wallets enabled for payment` when the
resulting address map is empty, then commit through `Store.CreatePayment`,
wrapping a store failure as `store payment: ...`.  The Go method mutates
the wallets in place and returns only `(payment, error)`; the embedding
returns the mutated state alongside. -/
def createPayment (ps : PaywallState) (paymentID : String) (now : Int) :
    Except String Payment × PaywallState :=
  match derivationLoop ps.prices ps.hdWallets {
    id := paymentID
    addresses := []
    amounts := []
    createdAt := now
    expiresAt := now + ps.paymentTimeout
    status := PaymentStatus.pending
    confirmations := 0
    transactionID := "" } with
  | (Except.error e, ws) => (Except.error e, { ps with hdWallets := ws })
  | (Except.ok pay, ws) =>
    if pay.addresses.length = 0 then
      (Except.error "no wallets enabled for payment", { ps with hdWallets := ws })
    else
      match ps.storeError with
      | some e => (Except.error ("store payment: " ++ e), { ps with hdWallets := ws })
      | none => (Except.ok pay, { ps with hdWallets := ws, store := ps.store ++ [pay] })

/- ===================== verification.go ===================== -/

/-- The `CryptoClient` capability: balance and confirmation queries against
an external collaborator, embedded as response functions. -/
structure CryptoClient where
  getAddressBalance : String → Except String Rat
  getTransactionConfirmations : String → Except String Int

/-- The fields of `CryptoChainMonitor` the checks read: the per-currency
client map and the paywall's `minConfirmations`. -/
structure Monitor where
  client : WalletType → Option CryptoClient
  minConfirmations : Int

/-- `CryptoChainMonitor.CheckBTCPayments`: look up the Bitcoin client,
query the balance of the payment's Bitcoin address; when the balance covers
the required amount, demand a non-empty `TransactionID` (erroring with
`missing transaction ID for payment <id>` otherwise), query its
confirmations, and mark the payment confirmed when they reach
`minConfirmations`.  The Go method mutates the payment and stores it via
`UpdatePayment`; the embedding returns the (possibly updated) payment. -/
def CheckBTCPayments (m : Monitor) (p : Payment) : Except String Payment :=
  match m.client WalletType.bitcoin with
  | none => Except.error "bitcoin client not found"
  | some client =>
    match client.getAddressBalance (lookupAddr p.addresses WalletType.bitcoin) with
    | Except.error e => Except.error e
    | Except.ok btcBalance =>
      if lookupAmount p.amounts WalletType.bitcoin ≤ btcBalance then
        if p.transactionID = "" then
          Except.error ("missing transaction ID for payment " ++ p.id)
        else
          match client.getTransactionConfirmations p.transactionID with
          | Except.error e => Except.error e
          | Except.ok confirmations =>
            if m.minConfirmations ≤ confirmations then
              Except.ok { p with status := PaymentStatus.confirmed,
                                 confirmations := confirmations }
            else Except.ok p
      else Except.ok p

/-- `CryptoChainMonitor.CheckXMRPayments`: the Monero counterpart of
`CheckBTCPayments`, identical control flow over the Monero client, address
and amount. -/
def CheckXMRPayments (m : Monitor) (p : Payment) : Except String Payment :=
  match m.client WalletType.monero with
  | none => Except.error "monero client not found"
  | some client =>
    match client.getAddressBalance (lookupAddr p.addresses WalletType.monero) with
    | Except.error e => Except.error e
    | Except.ok xmrBalance =>
      if lookupAmount p.amounts WalletType.monero ≤ xmrBalance then
        if p.transactionID = "" then
          Except.error ("missing transaction ID for payment " ++ p.id)
        else
          match client.getTransactionConfirmations p.transactionID with
          | Except.error e => Except.error e
          | Except.ok confirmations =>
            if m.minConfirmations ≤ confirmations then
              Except.ok { p with status := PaymentStatus.confirmed,
                                 confirmations := confirmations }
            else Except.ok p
      else Except.ok p

/-- How `checkPendingPayments` consumes one check's outcome: an error is
logged and the payment keeps its previous state (the Go checks mutate the
record only on the confirming path, before which every error returns); a
successful check yields the possibly-confirmed record. -/
def orKeep (p : Payment) : Except String Payment → Payment
  | Except.ok q => q
  | Except.error _ => p

/-- One payment's treatment inside `checkPendingPayments`: run
`CheckBTCPayments`, then `CheckXMRPayments` on the same record, each
error being logged and skipped. -/
def checkPaymentStep (m : Monitor) (p : Payment) : Payment :=
  orKeep (orKeep p (CheckBTCPayments m p))
    (CheckXMRPayments m (orKeep p (CheckBTCPayments m p)))

/-- The ticker period of `CryptoChainMonitor.Start`:
`time.NewTicker(10 * time.Second)`. -/
def monitorBaseIntervalSeconds : Int := 10

/-- The scheduling state of the monitor goroutine: the ticker's period in
seconds. -/
structure MonitorLoopState where
  intervalSeconds : Int
deriving DecidableEq, Repr

/-- The monitor loop's initial scheduling state. -/
def monitorLoopInit : MonitorLoopState :=
  { intervalSeconds := monitorBaseIntervalSeconds }

/-- One iteration of the `select` loop in `CryptoChainMonitor.Start`: the
loop body calls `checkPendingPayments()` and never touches the ticker, so
the scheduling state is unchanged whether or not the cycle failed
(`cycleHadErrors` records whether `ListPendingPayments` or any per-payment
check failed in that cycle). -/
def monitorLoopStep (s : MonitorLoopState) (_cycleHadErrors : Bool) : MonitorLoopState :=
  s

/- ============ concrete instances used in closed statements ============ -/

/-- A concrete `BTCHDWallet` whose abstract crypto primitives are trivial
but non-degenerate: the HMAC digest is `0x01` followed by 63 zero bytes, so
every child key along the BIP44 path is a small nonzero multiple of
`2 ^ 248` modulo the curve order and derivation succeeds. -/
def sampleBTCWallet : BTCHDWallet :=
  { masterKey := List.replicate 32 0
    chainCode := List.replicate 32 0
    nextIndex := 0
    hmacSHA512 := fun _ _ => 1 :: List.replicate 63 0
    serializeCompressedPub := fun k => k
    sha256 := fun l => l
    ripemd160 := fun l => l
    pubKeyHashVersion := 0 }

/-- A concrete `BTCHDWallet` whose HMAC digest is all zeros over a zero
master key, so the very first child-key derivation computes the child
integer `(0 + 0) mod N = 0` and hits the `invalid child key` branch. -/
def zeroChildBTCWallet : BTCHDWallet :=
  { masterKey := List.replicate 32 0
    chainCode := List.replicate 32 0
    nextIndex := 0
    hmacSHA512 := fun _ _ => List.replicate 64 0
    serializeCompressedPub := fun k => k
    sha256 := fun l => l
    ripemd160 := fun l => l
    pubKeyHashVersion := 0 }

/-- A concrete `BTCHDWallet` in a state where an address has already been
derived (`nextIndex = 1`).  Its HMAC digest depends on the hashed data, so
different derivation indices yield different child keys and therefore
different addresses; every child integer along the path stays a small
nonzero value below the curve order, so derivation always succeeds. -/
def derivedBTCWallet : BTCHDWallet :=
  { masterKey := List.replicate 32 0
    chainCode := List.replicate 32 0
    nextIndex := 1
    hmacSHA512 := fun _ data => 1 :: data.reverse.take 63
    serializeCompressedPub := fun k => k
    sha256 := fun l => l
    ripemd160 := fun l => l
    pubKeyHashVersion := 0 }

/-- A stored payment with the given id and confirmation count, pending and
far from expiry. -/
def pendingPaymentWithConfs (id : String) (confs : Int) : Payment :=
  { id := id
    addresses := [(WalletType.bitcoin, "addr-" ++ id)]
    amounts := [(WalletType.bitcoin, 1)]
    createdAt := 0
    expiresAt := 1000
    status := PaymentStatus.pending
    confirmations := confs
    transactionID := "" }

/-- The store contents of the spec's litmus test: payments with
confirmations 0, 1, 3 and 6. -/
def litmusStore : List Payment :=
  [pendingPaymentWithConfs "p0" 0,
   pendingPaymentWithConfs "p1" 1,
   pendingPaymentWithConfs "p3" 3,
   pendingPaymentWithConfs "p6" 6]

/-- A ledger wallet at index 5 whose derivations succeed. -/
def sampleLedgerWallet : LedgerWallet :=
  { nextIndex := 5
    addressAt := fun i => "btc-" ++ toString i
    deriveError := none }

/-- A paywall state with one enabled Bitcoin wallet and a store that is
forced to fail ("disk full"). -/
def failingStorePaywall : PaywallState :=
  { hdWallets := [(WalletType.bitcoin, sampleLedgerWallet)]
    prices := fun _ => 1/100
    paymentTimeout := 3600
    storeError := some "disk full"
    store := [] }

/-- A paywall state with no enabled wallets. -/
def noWalletPaywall : PaywallState :=
  { hdWallets := []
    prices := fun _ => 1/100
    paymentTimeout := 3600
    storeError := none
    store := [pendingPaymentWithConfs "existing" 0] }

/-- A client that reports a generous balance and plenty of confirmations
for every query. -/
def richClient : CryptoClient :=
  { getAddressBalance := fun _ => Except.ok 1000
    getTransactionConfirmations := fun _ => Except.ok 100 }

/-- A monitor with the rich client bound to both currencies and a minimum
of one confirmation. -/
def richMonitor : Monitor :=
  { client := fun _ => some richClient
    minConfirmations := 1 }

/-- A monitor with no clients configured. -/
def clientlessMonitor : Monitor :=
  { client := fun _ => none
    minConfirmations := 1 }

/-- An expired payment (deadline long past, still unconfirmed). -/
def expiredPayment : Payment :=
  { pendingPaymentWithConfs "late" 0 with
    status := PaymentStatus.expired
    expiresAt := -1 }

/- ===================== helper lemmas ===================== -/

theorem derivationLoop_ok_state (prices : WalletType → Rat) :
    ∀ (ws : List (WalletType × LedgerWallet)) (pay : Payment),
      (∀ w ∈ ws, w.2.deriveError = none) →
      derivationLoop prices ws pay =
        (Except.ok { pay with
            addresses := pay.addresses ++
              ws.map (fun w => (w.1, w.2.addressAt w.2.nextIndex)),
            amounts := pay.amounts ++ ws.map (fun w => (w.1, prices w.1)) },
         ws.map (fun w => (w.1, { w.2 with nextIndex := w.2.nextIndex + 1 }))) := by
  intro ws
  induction ws with
  | nil => intro pay _; simp [derivationLoop]
  | cons hd tl ih =>
    intro pay h
    obtain ⟨wt, w⟩ := hd
    have hw : w.deriveError = none := h (wt, w) (List.mem_cons_self _ _)
    simp only [derivationLoop, LedgerWallet.deriveNextAddress, hw]
    rw [ih _ (fun x hx => h x (List.mem_cons_of_mem _ hx))]
    simp [hw]

theorem derivationLoop_ok_fields (prices : WalletType → Rat) :
    ∀ (ws : List (WalletType × LedgerWallet)) (pay res : Payment),
      (derivationLoop prices ws pay).1 = Except.ok res →
      res.transactionID = pay.transactionID ∧ res.status = pay.status := by
  intro ws
  induction ws with
  | nil =>
    intro pay res h
    simp only [derivationLoop] at h
    cases h
    exact ⟨rfl, rfl⟩
  | cons hd tl ih =>
    intro pay res h
    obtain ⟨wt, w⟩ := hd
    cases hw : w.deriveError with
    | some e =>
      simp only [derivationLoop, LedgerWallet.deriveNextAddress, hw] at h
      exact absurd h (by simp)
    | none =>
      simp only [derivationLoop, LedgerWallet.deriveNextAddress, hw] at h
      exact ih { pay with
        addresses := pay.addresses ++ [(wt, w.addressAt w.nextIndex)],
        amounts := pay.amounts ++ [(wt, prices wt)] } res h

/-- C1. With minimum-confirmations 1, `MemoryStore.ListPendingPayments`
returns exactly the payments with confirmations below 1, but
`FileStore.ListPendingPayments` also returns the payment with exactly one
confirmation: on the spec's litmus store (confirmations 0, 1, 3, 6) the
memory store yields only the 0-confirmation payment, while the file store
yields the 0- and 1-confirmation payments, contradicting both the claim
and the file store's own documentation. -/
theorem listPendingPayments_litmus_eval :
    memoryStoreListPendingPayments litmusStore = [pendingPaymentWithConfs "p0" 0] ∧
    fileStoreListPendingPayments litmusStore =
      [pendingPaymentWithConfs "p0" 0, pendingPaymentWithConfs "p1" 1] := by
  exact ⟨rfl, rfl⟩

/-- C2. `Paywall.CreatePayment` performs no rollback: when every enabled
wallet derives successfully and `Store.CreatePayment` fails, the method
returns the wrapped store error but every wallet's `nextIndex` is left
advanced by one (for K enabled currencies, K indices advanced), not
restored to its pre-attempt value. -/
theorem createPayment_store_failure_no_rollback :
    ∀ (ps : PaywallState) (paymentID : String) (now : Int) (e : String),
      ps.storeError = some e →
      (∀ w ∈ ps.hdWallets, w.2.deriveError = none) →
      ps.hdWallets ≠ [] →
      (createPayment ps paymentID now).1 = Except.error ("store payment: " ++ e) ∧
      (createPayment ps paymentID now).2.hdWallets.map (fun w => (w.1, w.2.nextIndex)) =
        ps.hdWallets.map (fun w => (w.1, w.2.nextIndex + 1)) := by
  intro ps paymentID now e hstore hderive hne
  unfold createPayment
  rw [derivationLoop_ok_state ps.prices ps.hdWallets _ hderive]
  have hlen : (ps.hdWallets.map
      (fun w => (w.1, w.2.addressAt w.2.nextIndex))).length ≠ 0 := by
    simpa using hne
  simp only [List.nil_append, hstore]
  rw [if_neg hlen]
  refine ⟨rfl, ?_⟩
  simp [List.map_map, Function.comp]

/-- C2 witness: a single enabled Bitcoin wallet at index 5 and a store
forced to fail — creation errors and the wallet index is left at 6. -/
theorem createPayment_store_failure_no_rollback_witness :
    (createPayment failingStorePaywall "id1" 0).1 =
      Except.error "store payment: disk full" ∧
    (createPayment failingStorePaywall "id1" 0).2.hdWallets.map
        (fun w => (w.1, w.2.nextIndex)) =
      failingStorePaywall.hdWallets.map (fun w => (w.1, w.2.nextIndex + 1)) :=
  createPayment_store_failure_no_rollback failingStorePaywall "id1" 0 "disk full" rfl
    (by
      intro w hw
      simp only [failingStorePaywall, List.mem_singleton] at hw
      subst hw
      rfl)
    (List.cons_ne_nil _ _)

/-- C9. With no enabled wallets, `Paywall.CreatePayment` returns the
configuration error `no wallets enabled for payment` and never reaches
`Store.CreatePayment`: the store contents are unchanged. -/
theorem createPayment_no_wallets_config_error :
    ∀ (ps : PaywallState) (paymentID : String) (now : Int),
      ps.hdWallets = [] →
      (createPayment ps paymentID now).1 = Except.error "no wallets enabled for payment" ∧
      (createPayment ps paymentID now).2.store = ps.store := by
  intro ps paymentID now h
  unfold createPayment
  rw [h]
  simp [derivationLoop]

/-- C9 witness at a concrete wallet-less paywall. -/
theorem createPayment_no_wallets_config_error_witness :
    (createPayment noWalletPaywall "id1" 0).1 =
      Except.error "no wallets enabled for payment" ∧
    (createPayment noWalletPaywall "id1" 0).2.store = noWalletPaywall.store :=
  createPayment_no_wallets_config_error noWalletPaywall "id1" 0 rfl

/-- C10. The `MinConfirmations` clamp of `NewPaywall`: the stored
`minConfirmations` is always at least 1; every configured value below 1 is
silently replaced by 1, and values of at least 1 are kept. -/
theorem newPaywall_minConfirmations_clamped :
    ∀ c : Int, 1 ≤ newPaywallMinConfirmations c ∧
      (c < 1 → newPaywallMinConfirmations c = 1) ∧
      (1 ≤ c → newPaywallMinConfirmations c = c) := by
  intro c
  unfold newPaywallMinConfirmations
  by_cases h : c < 1
  · simp [h]
  · simp [h]; omega

/-- C10 witness at the concrete configured values 0 and -5 and 3. -/
theorem newPaywall_minConfirmations_clamped_witness :
    newPaywallMinConfirmations 0 = 1 ∧
    newPaywallMinConfirmations (-5) = 1 ∧
    newPaywallMinConfirmations 3 = 3 :=
  ⟨(newPaywall_minConfirmations_clamped 0).2.1 (by norm_num),
   (newPaywall_minConfirmations_clamped (-5)).2.1 (by norm_num),
   (newPaywall_minConfirmations_clamped 3).2.2 (by norm_num)⟩

/-- C3. The monitor has no backoff: `Start` creates a 10-second ticker and
the polling loop never modifies it, so after any sequence of failing (or
succeeding) cycles the next-poll interval equals the base interval — it
never increases towards a ceiling and there is nothing to reset. -/
theorem monitor_interval_never_changes :
    monitorLoopInit.intervalSeconds = monitorBaseIntervalSeconds ∧
    ∀ (s : MonitorLoopState) (cycles : List Bool),
      (cycles.foldl monitorLoopStep s).intervalSeconds = s.intervalSeconds := by
  refine ⟨rfl, ?_⟩
  intro s cycles
  induction cycles generalizing s with
  | nil => rfl
  | cons c cs ih => exact ih s

theorem CheckBTCPayments_ok_cases :
    ∀ (m : Monitor) (p q : Payment), CheckBTCPayments m p = Except.ok q →
      q = p ∨ (p.transactionID ≠ "" ∧ q.status = PaymentStatus.confirmed) := by
  intro m p q h
  unfold CheckBTCPayments at h
  cases hc : m.client WalletType.bitcoin with
  | none => rw [hc] at h; cases h
  | some client =>
    rw [hc] at h
    simp only at h
    cases hb : client.getAddressBalance (lookupAddr p.addresses WalletType.bitcoin) with
    | error e => rw [hb] at h; cases h
    | ok bal =>
      rw [hb] at h
      simp only at h
      by_cases hle : lookupAmount p.amounts WalletType.bitcoin ≤ bal
      · rw [if_pos hle] at h
        by_cases ht : p.transactionID = ""
        · rw [if_pos ht] at h; cases h
        · rw [if_neg ht] at h
          cases hconf : client.getTransactionConfirmations p.transactionID with
          | error e => rw [hconf] at h; cases h
          | ok c =>
            rw [hconf] at h
            simp only at h
            by_cases hmin : m.minConfirmations ≤ c
            · rw [if_pos hmin] at h
              cases h
              exact Or.inr ⟨ht, rfl⟩
            · rw [if_neg hmin] at h
              cases h
              exact Or.inl rfl
      · rw [if_neg hle] at h
        cases h
        exact Or.inl rfl

theorem CheckXMRPayments_ok_cases :
    ∀ (m : Monitor) (p q : Payment), CheckXMRPayments m p = Except.ok q →
      q = p ∨ (p.transactionID ≠ "" ∧ q.status = PaymentStatus.confirmed) := by
  intro m p q h
  unfold CheckXMRPayments at h
  cases hc : m.client WalletType.monero with
  | none => rw [hc] at h; cases h
  | some client =>
    rw [hc] at h
    simp only at h
    cases hb : client.getAddressBalance (lookupAddr p.addresses WalletType.monero) with
    | error e => rw [hb] at h; cases h
    | ok bal =>
      rw [hb] at h
      simp only at h
      by_cases hle : lookupAmount p.amounts WalletType.monero ≤ bal
      · rw [if_pos hle] at h
        by_cases ht : p.transactionID = ""
        · rw [if_pos ht] at h; cases h
        · rw [if_neg ht] at h
          cases hconf : client.getTransactionConfirmations p.transactionID with
          | error e => rw [hconf] at h; cases h
          | ok c =>
            rw [hconf] at h
            simp only at h
            by_cases hmin : m.minConfirmations ≤ c
            · rw [if_pos hmin] at h
              cases h
              exact Or.inr ⟨ht, rfl⟩
            · rw [if_neg hmin] at h
              cases h
              exact Or.inl rfl
      · rw [if_neg hle] at h
        cases h
        exact Or.inl rfl

theorem orKeep_btc_empty_txid :
    ∀ (m : Monitor) (p : Payment), p.transactionID = "" →
      orKeep p (CheckBTCPayments m p) = p := by
  intro m p ht
  cases hb : CheckBTCPayments m p with
  | error e => rfl
  | ok q =>
    rcases CheckBTCPayments_ok_cases m p q hb with h | h
    · exact h
    · exact absurd ht h.1

theorem orKeep_xmr_empty_txid :
    ∀ (m : Monitor) (p : Payment), p.transactionID = "" →
      orKeep p (CheckXMRPayments m p) = p := by
  intro m p ht
  cases hx : CheckXMRPayments m p with
  | error e => rfl
  | ok q =>
    rcases CheckXMRPayments_ok_cases m p q hx with h | h
    · exact h
    · exact absurd ht h.1

theorem checkPaymentStep_fix_of_empty_txid :
    ∀ (m : Monitor) (p : Payment), p.transactionID = "" →
      checkPaymentStep m p = p := by
  intro m p ht
  unfold checkPaymentStep
  rw [orKeep_btc_empty_txid m p ht]
  exact orKeep_xmr_empty_txid m p ht

theorem orKeep_btc_status :
    ∀ (m : Monitor) (p : Payment),
      (orKeep p (CheckBTCPayments m p)).status = p.status ∨
      (orKeep p (CheckBTCPayments m p)).status = PaymentStatus.confirmed := by
  intro m p
  cases hb : CheckBTCPayments m p with
  | error e => exact Or.inl rfl
  | ok q =>
    rcases CheckBTCPayments_ok_cases m p q hb with h | h
    · exact Or.inl (by subst h; rfl)
    · exact Or.inr h.2

theorem orKeep_xmr_status :
    ∀ (m : Monitor) (p : Payment),
      (orKeep p (CheckXMRPayments m p)).status = p.status ∨
      (orKeep p (CheckXMRPayments m p)).status = PaymentStatus.confirmed := by
  intro m p
  cases hx : CheckXMRPayments m p with
  | error e => exact Or.inl rfl
  | ok q =>
    rcases CheckXMRPayments_ok_cases m p q hx with h | h
    · exact Or.inl (by subst h; rfl)
    · exact Or.inr h.2

/-- C4. A pending payment with an empty `TransactionID` can never be
confirmed by the monitor: both `CheckBTCPayments` and `CheckXMRPayments`
return the `missing transaction ID` error as soon as the address balance
covers the required amount, and in every case the monitor's per-payment
step leaves such a payment unchanged, in any number of cycles; and no
core operation ever assigns `TransactionID` — every payment produced by
`CreatePayment` carries the empty string. -/
theorem monitor_never_confirms_empty_txid :
    ∀ (m : Monitor) (p : Payment), p.transactionID = "" →
      checkPaymentStep m p = p ∧
      (∀ n : Nat, Nat.iterate (checkPaymentStep m) n p = p) ∧
      (∀ (client : CryptoClient) (bal : Rat),
        m.client WalletType.bitcoin = some client →
        client.getAddressBalance (lookupAddr p.addresses WalletType.bitcoin) =
          Except.ok bal →
        lookupAmount p.amounts WalletType.bitcoin ≤ bal →
        CheckBTCPayments m p =
          Except.error ("missing transaction ID for payment " ++ p.id)) ∧
      (∀ (client : CryptoClient) (bal : Rat),
        m.client WalletType.monero = some client →
        client.getAddressBalance (lookupAddr p.addresses WalletType.monero) =
          Except.ok bal →
        lookupAmount p.amounts WalletType.monero ≤ bal →
        CheckXMRPayments m p =
          Except.error ("missing transaction ID for payment " ++ p.id)) ∧
      (∀ (ps : PaywallState) (paymentID : String) (now : Int) (res : Payment),
        (createPayment ps paymentID now).1 = Except.ok res →
        res.transactionID = "") := by
  intro m p ht
  have hstep := checkPaymentStep_fix_of_empty_txid m p ht
  refine ⟨hstep, ?_, ?_, ?_, ?_⟩
  · intro n
    induction n with
    | zero => rfl
    | succ k ih => rw [Function.iterate_succ_apply, hstep, ih]
  · intro client bal hc hb hle
    unfold CheckBTCPayments
    rw [hc]
    simp only
    rw [hb]
    simp only
    rw [if_pos hle, if_pos ht]
  · intro client bal hc hb hle
    unfold CheckXMRPayments
    rw [hc]
    simp only
    rw [hb]
    simp only
    rw [if_pos hle, if_pos ht]
  · intro ps paymentID now res h
    unfold createPayment at h
    cases hd : (derivationLoop ps.prices ps.hdWallets
        { id := paymentID, addresses := [], amounts := [], createdAt := now,
          expiresAt := now + ps.paymentTimeout, status := PaymentStatus.pending,
          confirmations := 0, transactionID := "" }) with
    | mk r ws =>
      rw [hd] at h
      cases r with
      | error e => cases h
      | ok pay =>
        simp only at h
        by_cases hz : pay.addresses.length = 0
        · rw [if_pos hz] at h; cases h
        · rw [if_neg hz] at h
          cases hs : ps.storeError with
          | some e => rw [hs] at h; cases h
          | none =>
            rw [hs] at h
            cases h
            exact (derivationLoop_ok_fields ps.prices ps.hdWallets _ res
              (by rw [hd])).1

/-- C4 witness: a freshly created pending payment (empty transaction id)
facing a client that reports an ample balance — the BTC check errors with
the missing-transaction-id message and the monitor step leaves the payment
unchanged. -/
theorem monitor_never_confirms_empty_txid_witness :
    (pendingPaymentWithConfs "w" 0).transactionID = "" ∧
    checkPaymentStep richMonitor (pendingPaymentWithConfs "w" 0) =
      pendingPaymentWithConfs "w" 0 ∧
    CheckBTCPayments richMonitor (pendingPaymentWithConfs "w" 0) =
      Except.error "missing transaction ID for payment w" :=
  ⟨rfl,
   (monitor_never_confirms_empty_txid richMonitor (pendingPaymentWithConfs "w" 0) rfl).1,
   (monitor_never_confirms_empty_txid richMonitor (pendingPaymentWithConfs "w" 0)
      rfl).2.2.1 richClient 1000 rfl rfl (by decide)⟩

/-- C5. No core operation ever marks a payment expired: the monitor's
per-payment step only ever keeps the current status or sets `confirmed`
(so a payment is expired after the step only if it already was), and
`CreatePayment` always emits `pending` — an expired-deadline payment is
never transitioned to `StatusExpired` by the reconciliation loop, there
being no expiry sweep in the core. -/
theorem monitor_never_marks_expired :
    ∀ (m : Monitor) (p : Payment),
      ((checkPaymentStep m p).status = PaymentStatus.expired →
        p.status = PaymentStatus.expired) ∧
      (∀ (ps : PaywallState) (paymentID : String) (now : Int) (res : Payment),
        (createPayment ps paymentID now).1 = Except.ok res →
        res.status = PaymentStatus.pending) := by
  intro m p
  constructor
  · intro h
    unfold checkPaymentStep at h
    rcases orKeep_xmr_status m (orKeep p (CheckBTCPayments m p)) with h2 | h2
    · rw [h] at h2
      rcases orKeep_btc_status m p with h3 | h3
      · rw [← h3, ← h2]
      · rw [← h2] at h3; cases h3
    · rw [h] at h2; cases h2
  · intro ps paymentID now res h
    unfold createPayment at h
    cases hd : (derivationLoop ps.prices ps.hdWallets
        { id := paymentID, addresses := [], amounts := [], createdAt := now,
          expiresAt := now + ps.paymentTimeout, status := PaymentStatus.pending,
          confirmations := 0, transactionID := "" }) with
    | mk r ws =>
      rw [hd] at h
      cases r with
      | error e => cases h
      | ok pay =>
        simp only at h
        by_cases hz : pay.addresses.length = 0
        · rw [if_pos hz] at h; cases h
        · rw [if_neg hz] at h
          cases hs : ps.storeError with
          | some e => rw [hs] at h; cases h
          | none =>
            rw [hs] at h
            cases h
            exact (derivationLoop_ok_fields ps.prices ps.hdWallets _ res
              (by rw [hd])).2

/-- C5 witness: a payment already expired and a monitor with no clients —
the step leaves it expired, and the theorem's implication is discharged at
this concrete input. -/
theorem monitor_never_marks_expired_witness :
    (checkPaymentStep clientlessMonitor expiredPayment).status =
      PaymentStatus.expired ∧
    expiredPayment.status = PaymentStatus.expired :=
  ⟨by decide, (monitor_never_marks_expired clientlessMonitor expiredPayment).1 (by decide)⟩

/-- C6 counterexample: on a concrete wallet in which an address has
already been derived (`nextIndex = 1`), a successful `GetAddress` call
advances `nextIndex` from 1 to 2 instead of leaving it unchanged, and a
second call returns a different address — it is a fresh derivation, not an
idempotent re-read of the current address. -/
theorem getAddress_counterexample :
    derivedBTCWallet.nextIndex = 1 ∧
    (GetAddress derivedBTCWallet).1 =
      Except.ok "13HD61wNNmUgUT8r8ox4obfmeV8kgQ6aGe4697QiZvns1Ehmfd" ∧
    (GetAddress derivedBTCWallet).2.nextIndex = 2 ∧
    (GetAddress (GetAddress derivedBTCWallet).2).1 =
      Except.ok "13HJsgCMvAryMBHuYGrbgd3fuunEph9kuAF2hF2QDEFibiz6Uw" ∧
    ("13HD61wNNmUgUT8r8ox4obfmeV8kgQ6aGe4697QiZvns1Ehmfd" : String) ≠
      "13HJsgCMvAryMBHuYGrbgd3fuunEph9kuAF2hF2QDEFibiz6Uw" :=
  ⟨rfl, rfl, rfl, rfl, by decide⟩

/-- C6 (amended). `GetAddress` is a forwarding wrapper around
`DeriveNextAddress`: whenever derivation succeeds it returns the same
address and the same post-state, whose `nextIndex` is the previous index
plus one — reading the address does increment the wallet's index. -/
theorem getAddress_derives_and_increments :
    ∀ (w w' : BTCHDWallet) (a : String),
      DeriveNextAddress w = (Except.ok a, w') →
      GetAddress w = (Except.ok a, w') ∧ w'.nextIndex = w.nextIndex + 1 := by
  intro w w' a h
  constructor
  · unfold GetAddress
    rw [h]
  · unfold DeriveNextAddress at h
    cases hc : deriveKeyChain w (derivePath w) (w.masterKey, w.chainCode) with
    | error e => rw [hc] at h; cases h
    | ok kc =>
      rw [hc] at h
      cases h
      rfl

/-- C6 witness: the amended statement applied to the concrete sample
wallet. -/
theorem getAddress_derives_and_increments_witness :
    GetAddress sampleBTCWallet =
      (Except.ok "13CifKrt34wQVLv8pnLV3QLTQvG63PFayESx74VtCPfW79GF6F",
        { sampleBTCWallet with nextIndex := 1 }) ∧
    ({ sampleBTCWallet with nextIndex := 1 } : BTCHDWallet).nextIndex =
      sampleBTCWallet.nextIndex + 1 :=
  getAddress_derives_and_increments sampleBTCWallet
    { sampleBTCWallet with nextIndex := 1 }
    "13CifKrt34wQVLv8pnLV3QLTQvG63PFayESx74VtCPfW79GF6F" rfl

/-- C7 counterexample: on a concrete wallet whose first child-key
derivation yields the zero child integer, `DeriveNextAddress` returns the
`key derivation failed: invalid child key` error with the wallet state
(including `nextIndex`) unchanged — it does not skip the index, retry, and
return an address for a later index. -/
theorem deriveNextAddress_zero_child_counterexample :
    deriveKey zeroChildBTCWallet (List.replicate 32 0) (List.replicate 32 0)
        (purposeBIP44 ||| hardenedKeyStart) =
      Except.error "invalid child key" ∧
    DeriveNextAddress zeroChildBTCWallet =
      (Except.error "key derivation failed: invalid child key",
        zeroChildBTCWallet) :=
  ⟨rfl, rfl⟩

/-- C7 (amended). When child-key derivation produces a zero-valued child
key, `deriveKey` rejects it with the `invalid child key` error, and
`DeriveNextAddress` propagates the wrapped error without retrying at a
further index and without advancing `nextIndex`. -/
theorem deriveKey_zero_child_errors :
    (∀ (w : BTCHDWallet) (key cc : List Nat) (index : Nat),
      (bytesToNat ((w.hmacSHA512 cc
          ((if hardenedKeyStart ≤ index then 0 :: key
            else w.serializeCompressedPub key) ++ uint32BE index)).take 32) +
        bytesToNat key) % curveOrderN = 0 →
      deriveKey w key cc index = Except.error "invalid child key") ∧
    (∀ (w : BTCHDWallet) (e : String),
      deriveKeyChain w (derivePath w) (w.masterKey, w.chainCode) =
        Except.error e →
      DeriveNextAddress w = (Except.error e, w)) := by
  constructor
  · intro w key cc index h
    unfold deriveKey
    simp only [h]
    rfl
  · intro w e h
    unfold DeriveNextAddress
    rw [h]

/-- C7 witness: both parts of the amended statement discharged on the
concrete zero-child wallet. -/
theorem deriveKey_zero_child_errors_witness :
    deriveKey zeroChildBTCWallet (List.replicate 32 0) (List.replicate 32 0)
        (purposeBIP44 ||| hardenedKeyStart) =
      Except.error "invalid child key" ∧
    DeriveNextAddress zeroChildBTCWallet =
      (Except.error "key derivation failed: invalid child key",
        zeroChildBTCWallet) :=
  ⟨deriveKey_zero_child_errors.1 zeroChildBTCWallet (List.replicate 32 0)
      (List.replicate 32 0) (purposeBIP44 ||| hardenedKeyStart) (by decide),
   deriveKey_zero_child_errors.2 zeroChildBTCWallet
      "key derivation failed: invalid child key" rfl⟩

/- ============ base-58 round-trip development ============ -/

theorem natDigitsFuel_eq_digits (b : Nat) (hb : 2 ≤ b) :
    ∀ (fuel x : Nat), x ≤ fuel → natDigitsFuel b fuel x = Nat.digits b x := by
  intro fuel
  induction fuel with
  | zero =>
    intro x hx
    interval_cases x
    simp [natDigitsFuel]
  | succ f ih =>
    intro x hx
    by_cases h0 : x = 0
    · subst h0; simp [natDigitsFuel]
    · have hb1 : 1 < b := by omega
      have hxpos : 0 < x := Nat.pos_of_ne_zero h0
      have hdiv : x / b ≤ f := by
        have := Nat.div_lt_self hxpos hb1
        omega
      simp only [natDigitsFuel, if_neg h0]
      rw [ih (x / b) hdiv, Nat.digits_def' hb1 hxpos]

theorem natToB58_eq_digits (x : Nat) : natToB58 x = Nat.digits 58 x :=
  natDigitsFuel_eq_digits 58 (by norm_num) x x le_rfl

theorem natToBytesLE_eq_digits (x : Nat) : natToBytesLE x = Nat.digits 256 x :=
  natDigitsFuel_eq_digits 256 (by norm_num) x x le_rfl

theorem b58Index_b58Char_fin : ∀ d : Fin 58, b58Index (b58Char d.val) = some d.val := by
  decide

theorem b58Index_b58Char (d : Nat) (h : d < 58) : b58Index (b58Char d) = some d :=
  b58Index_b58Char_fin ⟨d, h⟩

theorem b58Char_ne_one_fin :
    ∀ d : Fin 58, d.val ≠ 0 → (b58Char d.val == '1') = false := by
  decide

theorem foldl_mul_add_reverse (b : Nat) :
    ∀ (ds : List Nat) (acc : Nat),
      (ds.reverse).foldl (fun a d => a * b + d) acc =
        acc * b ^ ds.length + Nat.ofDigits b ds := by
  intro ds
  induction ds with
  | nil => intro acc; simp [Nat.ofDigits_nil]
  | cons d tl ih =>
    intro acc
    simp only [List.reverse_cons, List.foldl_append, List.foldl_cons, List.foldl_nil,
      ih, Nat.ofDigits_cons, List.length_cons]
    ring

theorem b58DecodeNum_map (ds : List Nat) :
    ∀ acc : Nat, (∀ d ∈ ds, d < 58) →
      b58DecodeNum (ds.map b58Char) acc =
        some (ds.foldl (fun a d => a * 58 + d) acc) := by
  induction ds with
  | nil => intro acc _; rfl
  | cons d tl ih =>
    intro acc h
    simp only [List.map_cons, b58DecodeNum,
      b58Index_b58Char d (h d (List.mem_cons_self _ _)), List.foldl_cons]
    exact ih (acc * 58 + d) (fun x hx => h x (List.mem_cons_of_mem _ hx))

theorem b58DecodeNum_ones (k : Nat) (cs : List Char) :
    b58DecodeNum (List.replicate k '1' ++ cs) 0 = b58DecodeNum cs 0 := by
  induction k with
  | zero => rfl
  | succ n ih =>
    simpa only [List.replicate_succ, List.cons_append, b58DecodeNum,
      Nat.zero_mul, Nat.zero_add] using ih

theorem bytesToNat_eq_ofDigits (l : List Nat) :
    bytesToNat l = Nat.ofDigits 256 l.reverse := by
  have h := foldl_mul_add_reverse 256 l.reverse 0
  rw [List.reverse_reverse] at h
  simpa [bytesToNat] using h

theorem bytesToNat_zeros (k : Nat) (l : List Nat) :
    bytesToNat (List.replicate k 0 ++ l) = bytesToNat l := by
  induction k with
  | zero => rfl
  | succ n ih =>
    simpa only [bytesToNat, List.replicate_succ, List.cons_append, List.foldl_cons,
      Nat.zero_mul, Nat.zero_add] using ih

theorem foldl_mul_add_le (l : List Nat) :
    ∀ acc : Nat, acc ≤ l.foldl (fun a b => a * 256 + b) acc := by
  induction l with
  | nil => intro acc; simp
  | cons b tl ih =>
    intro acc
    have h1 : acc ≤ acc * 256 + b := by
      have := Nat.mul_le_mul_left acc (show 1 ≤ 256 by norm_num)
      omega
    simp only [List.foldl_cons]
    exact le_trans h1 (ih _)

theorem bytesToNat_pos (r : Nat) (rs : List Nat) (hr : r ≠ 0) :
    0 < bytesToNat (r :: rs) := by
  unfold bytesToNat
  simp only [List.foldl_cons]
  have h := foldl_mul_add_le rs (0 * 256 + r)
  omega

theorem takeWhile_zeros_eq_replicate (l : List Nat) :
    l.takeWhile (· == 0) = List.replicate (l.takeWhile (· == 0)).length 0 := by
  apply List.eq_replicate_of_mem
  intro b hb
  have h := List.mem_takeWhile_imp hb
  simpa using h

theorem dropWhile_cons_head_false {α : Type} (p : α → Bool) :
    ∀ (l : List α) (x : α) (xs : List α), l.dropWhile p = x :: xs → p x = false := by
  intro l
  induction l with
  | nil => intro x xs h; cases h
  | cons a tl ih =>
    intro x xs h
    cases hp : p a with
    | true =>
      rw [List.dropWhile_cons_of_pos hp] at h
      exact ih x xs h
    | false =>
      rw [List.dropWhile_cons_of_neg (by simp [hp])] at h
      cases h
      exact hp

theorem takeWhile_replicate_append {α : Type} (p : α → Bool) (a : α) (ha : p a = true)
    (k : Nat) (rest : List α) (hrest : rest.takeWhile p = []) :
    (List.replicate k a ++ rest).takeWhile p = List.replicate k a := by
  induction k with
  | zero => simpa using hrest
  | succ n ih =>
    simp [List.replicate_succ, List.cons_append, List.takeWhile_cons, ha, ih]


/-- C8. Base-58 round trip: for every byte sequence (empty, all-zero and
all-0xFF included), decoding the encoding succeeds and returns exactly the
input, and the encoded form carries exactly one leading `'1'` character per
leading zero byte of the input. -/
theorem base58_roundtrip (input : List Nat) (h : ∀ b ∈ input, b < 256) :
    Base58Decode (Base58Encode input) = some input ∧
    ((Base58Encode input).takeWhile (· == '1')).length =
      (input.takeWhile (· == 0)).length := by
  obtain ⟨k, rest, hsplit, htw, hdw⟩ :
      ∃ k rest, List.replicate k 0 ++ rest = input ∧
        (input.takeWhile (· == 0)).length = k ∧
        input.dropWhile (· == 0) = rest := by
    refine ⟨(input.takeWhile (· == 0)).length, input.dropWhile (· == 0), ?_, rfl, rfl⟩
    conv_rhs => rw [← List.takeWhile_append_dropWhile (· == 0) input]
    rw [← takeWhile_zeros_eq_replicate]
  have hn : bytesToNat input = bytesToNat rest := by
    rw [← hsplit, bytesToNat_zeros]
  have henc : Base58Encode input =
      List.replicate k '1' ++
        (Nat.digits 58 (bytesToNat rest)).reverse.map b58Char := by
    unfold Base58Encode
    rw [natToB58_eq_digits, hn, htw]
    rw [List.reverse_append, List.reverse_replicate, ← List.map_reverse]
  cases rest with
  | nil =>
    rw [List.append_nil] at hsplit
    have h0 : bytesToNat ([] : List Nat) = 0 := rfl
    rw [h0] at henc
    simp only [Nat.digits_zero, List.reverse_nil, List.map_nil, List.append_nil] at henc
    have htake : (List.replicate k '1').takeWhile (· == '1') = List.replicate k '1' := by
      have h2 := takeWhile_replicate_append (· == '1') '1' rfl k [] rfl
      rw [List.append_nil] at h2
      exact h2
    constructor
    · rw [henc]
      unfold Base58Decode
      have hdec : b58DecodeNum (List.replicate k '1') 0 = some 0 := by
        have := b58DecodeNum_ones k []
        simpa using this
      rw [hdec]
      simp only
      rw [htake, List.length_replicate]
      rw [show bigIntBytes 0 = [] from rfl, List.append_nil, hsplit]
    · rw [henc, htake, List.length_replicate, htw]
  | cons r rs =>
    have hrne : r ≠ 0 := by
      have hf := dropWhile_cons_head_false (· == 0) input r rs hdw
      simpa using hf
    have hpos : 0 < bytesToNat (r :: rs) := bytesToNat_pos r rs hrne
    have hne0 : bytesToNat (r :: rs) ≠ 0 := Nat.pos_iff_ne_zero.mp hpos
    have hdigne : Nat.digits 58 (bytesToNat (r :: rs)) ≠ [] :=
      Nat.digits_ne_nil_iff_ne_zero.mpr hne0
    obtain ⟨d0, ds0, hrev⟩ :
        ∃ d0 ds0, (Nat.digits 58 (bytesToNat (r :: rs))).reverse = d0 :: ds0 := by
      cases hrv : (Nat.digits 58 (bytesToNat (r :: rs))).reverse with
      | nil =>
        rw [List.reverse_eq_nil_iff] at hrv
        exact absurd hrv hdigne
      | cons a l => exact ⟨a, l, rfl⟩
    have hd0mem : d0 ∈ Nat.digits 58 (bytesToNat (r :: rs)) := by
      rw [← List.mem_reverse, hrev]
      exact List.mem_cons_self _ _
    have hd0lt : d0 < 58 := Nat.digits_lt_base (by norm_num) hd0mem
    have hd0ne : d0 ≠ 0 := by
      have hsome : (Nat.digits 58 (bytesToNat (r :: rs))).getLast? = some d0 := by
        rw [← List.head?_reverse, hrev]
        rfl
      rw [List.getLast?_eq_getLast_of_ne_nil hdigne] at hsome
      have hlast := Nat.getLast_digit_ne_zero 58 hne0
      cases hsome
      exact hlast
    have hlt58 : ∀ d ∈ (Nat.digits 58 (bytesToNat (r :: rs))).reverse, d < 58 :=
      fun d hd => Nat.digits_lt_base (by norm_num) (List.mem_reverse.mp hd)
    have hdecnum : b58DecodeNum (Base58Encode input) 0 = some (bytesToNat (r :: rs)) := by
      rw [henc, b58DecodeNum_ones, b58DecodeNum_map _ 0 hlt58]
      have hv := foldl_mul_add_reverse 58 (Nat.digits 58 (bytesToNat (r :: rs))) 0
      rw [Nat.ofDigits_digits] at hv
      rw [hv]
      simp
    have hbytes : bigIntBytes (bytesToNat (r :: rs)) = r :: rs := by
      unfold bigIntBytes
      rw [natToBytesLE_eq_digits]
      have hofd := bytesToNat_eq_ofDigits (r :: rs)
      rw [hofd, Nat.digits_ofDigits 256 (by norm_num) ((r :: rs).reverse) ?w1 ?w2]
      · rw [List.reverse_reverse]
      case w1 =>
        intro x hx
        apply h
        rw [← hsplit]
        exact List.mem_append_right _ (List.mem_reverse.mp hx)
      case w2 =>
        intro hne
        have hsome : ((r :: rs).reverse).getLast? = some r := by
          rw [← List.head?_reverse, List.reverse_reverse]
          rfl
        rw [List.getLast?_eq_getLast_of_ne_nil hne] at hsome
        have heq := Option.some.inj hsome
        rw [heq]
        exact hrne
    have htake1 : (Base58Encode input).takeWhile (· == '1') = List.replicate k '1' := by
      rw [henc, hrev, List.map_cons]
      apply takeWhile_replicate_append _ _ rfl
      rw [List.takeWhile_cons]
      have hone : (b58Char d0 == '1') = false := b58Char_ne_one_fin ⟨d0, hd0lt⟩ hd0ne
      rw [hone]
      rfl
    constructor
    · unfold Base58Decode
      rw [hdecnum]
      simp only
      rw [htake1, List.length_replicate, hbytes, hsplit]
    · rw [htake1, List.length_replicate, htw]


/-- C8 witness: the round trip applied at a concrete byte sequence with
leading zeros and a high byte. -/
theorem base58_roundtrip_witness :
    (∀ b ∈ ([0, 0, 255, 7, 58] : List Nat), b < 256) ∧
    Base58Decode (Base58Encode ([0, 0, 255, 7, 58] : List Nat)) =
      some [0, 0, 255, 7, 58] ∧
    ((Base58Encode ([0, 0, 255, 7, 58] : List Nat)).takeWhile (· == '1')).length =
      (([0, 0, 255, 7, 58] : List Nat).takeWhile (· == 0)).length :=
  ⟨by decide,
   (base58_roundtrip [0, 0, 255, 7, 58] (by decide)).1,
   (base58_roundtrip [0, 0, 255, 7, 58] (by decide)).2⟩

end Paywall
